import Mathlib

/-!
Verification of the library-catalog service (book store, rating store,
loan store) against its natural-language specification.

The functions below are shallow embeddings of the Python sources:
* `Books.*` follows `src/Part 1/BooksCollection.py` (the in-memory store);
* `Loans.*` follows `src/Part 2/LoansService/LoansCollection.py`.

Modelling conventions:
* Python floats are modelled as `ℚ` (exact arithmetic mean);
* HTTP status codes are `Nat`;
* a Python dict of string keys/values is an association list with
  first-occurrence lookup and replace-in-place assignment, which matches
  dict semantics whenever the keys are distinct (as they always are for a
  dict built from JSON);
* uncaught Python exceptions (KeyError) are `Except.error`;
* the nondeterministic parts (uuid4 ids, the network results of the two
  enrichment providers, the AI summary text) are passed in as arguments.
-/

set_option linter.unusedVariables false

/-- `\d{4}` : exactly four ASCII digits (what the `re` patterns use). -/
def fourDigits (l : List Char) : Bool :=
  match l with
  | [a, b, c, d] => a.isDigit && b.isDigit && c.isDigit && d.isDigit
  | _ => false

/-- A string of shape `YYYY-MM-DD` (pattern `^\d{4}-\d{2}-\d{2}$`). -/
def matchYMD (l : List Char) : Bool :=
  match l with
  | [a, b, c, d, h1, e, f, h2, g, i] =>
      a.isDigit && b.isDigit && c.isDigit && d.isDigit && h1 = '-' &&
      e.isDigit && f.isDigit && h2 = '-' && g.isDigit && i.isDigit
  | _ => false

/-- Helper for Python substring membership `sub in s` (list form). -/
def listContainsAux (sub : List Char) : List Char → Bool
  | [] => sub.isEmpty
  | c :: rest => sub.isPrefixOf (c :: rest) || listContainsAux sub rest

/-- Python `sub in s` for strings: substring containment. -/
def strContains (sub s : String) : Bool :=
  listContainsAux sub.data s.data

/-- Python `int()` on a rational: truncation toward zero
(`Int.tdiv` is T-division, unlike the Euclidean `/`). -/
def pythonInt (q : ℚ) : ℤ := Int.tdiv q.num (q.den : ℤ)

namespace Books

/-- A Python dict with string keys and string values, as built from JSON. -/
abbrev Dict := List (String × String)

/-- `d.get(k)` / `d[k]`: value of the first entry with key `k`. -/
def dictGet : Dict → String → Option String
  | [], _ => none
  | (k', v) :: rest, k => if k' = k then some v else dictGet rest k

/-- `d.get(k, dflt)`. -/
def dictGetD (d : Dict) (k dflt : String) : String :=
  (dictGet d k).getD dflt

/-- The key set of a dict (`k in d`). -/
def dictKeys (d : Dict) : List String := d.map (fun p => p.1)

/-- `d[k] = v`: replace the first entry with key `k` in place, else append. -/
def dictSet : Dict → String → String → Dict
  | [], k, v => [(k, v)]
  | (k', v') :: rest, k, v =>
      if k' = k then (k, v) :: rest else (k', v') :: dictSet rest k v

/-- `BooksCollection.BOOK_FIELDS` (note the source lists `publishDate`,
not the `publishedDate` key that `insert_book` actually stores). -/
def BOOK_FIELDS : List String :=
  ["title", "authors", "ISBN", "publisher", "publishDate", "genre",
   "language", "summary", "id"]

/-- `validate_title`: a (string) title must be non-empty. -/
def validate_title (title : String) : Bool := title.length > 0

/-- The fixed genre set of `validate_genre`. -/
def valid_genres : List String :=
  ["Fiction", "Children", "Biography", "Science", "Science Fiction",
   "Fantasy", "Other"]

/-- `validate_genre`. -/
def validate_genre (genre : String) : Bool := genre ∈ valid_genres

/-- `validate_publish_date`: pattern `^\d{4}(-\d{2}-\d{2})?$`. -/
def validate_publish_date (date : String) : Bool :=
  fourDigits date.data || matchYMD date.data

/-- One rating aggregate: `{'values': [...], 'average': a, 'title': t, 'id': i}`. -/
structure Rating where
  values : List ℚ
  average : ℚ
  title : String
  id : String
deriving DecidableEq, Repr

/-- The whole store: `self.db = {"books": [], "ratings": []}`. -/
structure State where
  books : List Dict
  ratings : List Rating
deriving DecidableEq, Repr

/-- `search_by_field`: probe the first record for the field, then filter by
equality.  (All records built by this store carry every schema key and only
string values, so the KeyError and the list-membership branch of the source
are unreachable; the trailing `result[0] if len == 1 else result` of the
source compares the built-in `len` with `1`, which is never true, so the
full list is always returned.) -/
def search_by_field (books : List Dict) (field value : String) : List Dict :=
  match books with
  | [] => []
  | b :: _ =>
      if field ∉ dictKeys b then []
      else books.filter (fun bk => dictGet bk field = some value)

/-- `validate_isbn`: exactly 13 characters and no existing book has it. -/
def validate_isbn (books : List Dict) (isbn : String) : Bool :=
  isbn.length = 13 && (search_by_field books "ISBN" isbn).isEmpty

/-- `validate_data` for a new book. -/
def validate_data (books : List Dict) (title isbn genre : String) : Bool :=
  validate_title title && validate_genre genre && validate_isbn books isbn

/-- Payload of a successful Google Books lookup. -/
structure GoogleData where
  authors : List String
  publisher : String
  publishedDate : String
deriving DecidableEq, Repr

/-- Payload of a successful Open Library lookup. -/
structure OpenLibData where
  language : String
deriving DecidableEq, Repr

/-- `" and ".join(authors)`. -/
def joinAnd (l : List String) : String := String.intercalate " and " l

/-- The dict literal built by `insert_book` (in source key order). -/
def mkBook (title authors isbn publisher publishedDate genre language
    summary id : String) : Dict :=
  [("title", title), ("authors", authors), ("ISBN", isbn),
   ("publisher", publisher), ("publishedDate", publishedDate),
   ("genre", genre), ("language", language), ("summary", summary),
   ("id", id)]

/-- `insert_book`.  The two provider lookups are passed in as `Except`
values (`error` = zero results or a network failure, as both return status
400 with an `{"error": ...}` payload).  Crucially, the source overwrites
`response_code` with the status of the second (Open Library) call, so the
enriched branch is taken exactly when Open Library succeeded; in that
branch `book_google_api_data["authors"]` raises KeyError whenever the
Google call had failed (its payload then only has an `"error"` key). -/
def insert_book (s : State) (title isbn genre : String)
    (google : Except String GoogleData) (openlib : Except String OpenLibData)
    (summary bookId : String) : Except Unit (Option String × Nat × State) :=
  if validate_data s.books title isbn genre = false then
    Except.ok (none, 422, s)
  else
    match openlib with
    | Except.error _ =>
        -- response_code = 400: every enrichment field keeps "missing"
        let book := mkBook title "missing" isbn "missing" "missing" genre
          "missing" summary bookId
        Except.ok (some bookId, 201,
          ⟨s.books ++ [book], s.ratings ++ [⟨[], 0, title, bookId⟩]⟩)
    | Except.ok ld =>
        match google with
        | Except.error _ => Except.error ()  -- KeyError on ["authors"]
        | Except.ok gd =>
            let authors := joinAnd gd.authors
            let publishedDate :=
              if validate_publish_date gd.publishedDate then gd.publishedDate
              else "missing"
            let book := mkBook title authors isbn gd.publisher publishedDate
              genre ld.language summary bookId
            Except.ok (some bookId, 201,
              ⟨s.books ++ [book], s.ratings ++ [⟨[], 0, title, bookId⟩]⟩)

/-- One filter step of `get_book`: substring match on `language`, exact
equality (`book.get(field) == value`) on every other field. -/
def filterStep (books : List Dict) (field value : String) : List Dict :=
  if field = "language" then
    books.filter (fun b => strContains value (dictGetD b field ""))
  else
    books.filter (fun b => dictGet b field = some value)

/-- The `for field, value in query.items()` loop of `get_book`. -/
def goFilter : List Dict → List (String × String) → Option (List Dict) × Nat
  | filtered, [] => (some filtered, 200)
  | filtered, (field, value) :: rest =>
      if field ∉ BOOK_FIELDS then (none, 422)
      else if field = "genre" ∧ validate_genre value = false then (none, 422)
      else
        let filtered' := filterStep filtered field value
        if filtered' = [] then (some [], 200)
        else goFilter filtered' rest

/-- `get_book` (query in dict iteration order). -/
def get_book (s : State) (query : List (String × String)) :
    Option (List Dict) × Nat :=
  if query = [] then (some s.books, 200)
  else goFilter s.books query

/-- `for field, value in put_values.items(): book[field] = value`. -/
def updateFields (b : Dict) (pvs : List (String × String)) : Dict :=
  pvs.foldl (fun bk p => dictSet bk p.1 p.2) b

/-- The book-locating loop of `update_book`: replace the first book whose
`id` equals `id_value`, `none` when no book matches. -/
def updateLoop (id_value : String) (pvs : List (String × String)) :
    List Dict → Option (List Dict)
  | [] => none
  | b :: rest =>
      if dictGet b "id" = some id_value then
        some (updateFields b pvs :: rest)
      else (updateLoop id_value pvs rest).map (fun bs => b :: bs)

/-- `update_book`.  The source reads `put_values["id"]` and
`put_values["genre"]` unconditionally, so a map missing either key raises
KeyError (= `Except.error`). -/
def update_book (s : State) (pvs : List (String × String)) :
    Except Unit (Option String × Nat × State) :=
  match dictGet pvs "id" with
  | none => Except.error ()
  | some id_value =>
      match dictGet pvs "genre" with
      | none => Except.error ()
      | some g =>
          if validate_genre g = false then Except.ok (none, 422, s)
          else
            match updateLoop id_value pvs s.books with
            | none => Except.ok (none, 404, s)
            | some books' => Except.ok (some id_value, 200, ⟨books', s.ratings⟩)

/-- The deleting loop of `delete_book`: drop the first book whose `id`
matches. -/
def deleteLoop (bookId : String) : List Dict → Option (List Dict)
  | [] => none
  | b :: rest =>
      if dictGet b "id" = some bookId then some rest
      else (deleteLoop bookId rest).map (fun bs => b :: bs)

/-- `delete_book`: removes the book record; the ratings list is not
touched. -/
def delete_book (s : State) (bookId : String) : Option String × Nat × State :=
  match deleteLoop bookId s.books with
  | none => (none, 404, s)
  | some books' => (some bookId, 200, ⟨books', s.ratings⟩)

/-- `statistics.mean` (exact, on `ℚ`). -/
def mean (l : List ℚ) : ℚ := l.sum / (l.length : ℚ)

/-- The rating-locating loop of `rate_book`: append to the first aggregate
whose `id` matches and recompute the mean. -/
def rateLoop (bookId : String) (r : ℚ) :
    List Rating → Option (List Rating × ℚ)
  | [] => none
  | a :: rest =>
      if a.id = bookId then
        let vals := a.values ++ [r]
        some (⟨vals, mean vals, a.title, a.id⟩ :: rest, mean vals)
      else (rateLoop bookId r rest).map (fun p => (a :: p.1, p.2))

/-- `rate_book`.  The guard is
`not float(int(rate)) == rate or int(rate) not in [1, 2, 3, 4, 5]`. -/
def rate_book (s : State) (bookId : String) (r : ℚ) :
    Option String × Option ℚ × Nat × State :=
  if ((pythonInt r : ℚ) ≠ r) ∨ pythonInt r ∉ ([1, 2, 3, 4, 5] : List ℤ) then
    (none, none, 422, s)
  else
    match rateLoop bookId r s.ratings with
    | none => (none, none, 404, s)
    | some (rs, avg) => (some bookId, some avg, 201, ⟨s.books, rs⟩)

/-- Insert into a list sorted in descending order. -/
def insertDesc (x : ℚ) : List ℚ → List ℚ
  | [] => [x]
  | y :: ys => if y ≤ x then x :: y :: ys else y :: insertDesc x ys

/-- `sorted(l, reverse=True)`. -/
def sortedDesc (l : List ℚ) : List ℚ := l.foldr insertDesc []

/-- The set comprehension of `get_top`:
`{rating["average"] for rating in ratings if len(rating["title"]) >= 3}` —
note the source filters on the length of the TITLE, not of the ratings
list. -/
def relevantAverages (ratings : List Rating) : List ℚ :=
  ((ratings.filter (fun a => 3 ≤ a.title.length)).map
    (fun a => a.average)).dedup

/-- `top_ratings = sorted(relevant_ratings, reverse=True)[:3]`. -/
def topRatings (ratings : List Rating) : List ℚ :=
  (sortedDesc (relevantAverages ratings)).take 3

/-- Append an aggregate to the bucket keyed by its average, if that key
exists (`if rating["average"] in top_books.keys()`). -/
def bucketAdd : List (ℚ × List Rating) → Rating → List (ℚ × List Rating)
  | [], _ => []
  | (k, l) :: rest, a =>
      if k = a.average then (k, l ++ [a]) :: rest
      else (k, l) :: bucketAdd rest a

/-- The filling loop of `get_top`: skip aggregates with fewer than 3
recorded ratings, then bucket by average. -/
def fillBuckets (ratings : List Rating) (buckets : List (ℚ × List Rating)) :
    List (ℚ × List Rating) :=
  ratings.foldl
    (fun bs a => if a.values.length < 3 then bs else bucketAdd bs a) buckets

/-- `list(chain.from_iterable(...))`. -/
def flattenL (ls : List (List Rating)) : List Rating :=
  ls.foldr (fun l acc => l ++ acc) []

/-- `get_top`: flatten the buckets in key order. -/
def get_top (ratings : List Rating) : List Rating × Nat :=
  let buckets0 := (topRatings ratings).map (fun k => (k, ([] : List Rating)))
  let buckets := fillBuckets ratings buckets0
  (flattenL (buckets.map (fun p => p.2)), 200)

/-- First aggregate with the given id (the one every locating loop of the
source acts on). -/
def lookupRating : List Rating → String → Option Rating
  | [], _ => none
  | a :: rest, bookId => if a.id = bookId then some a else lookupRating rest bookId

/-- The rating-aggregate invariant of the specification: the stored
average is the exact arithmetic mean of the ratings sequence whenever the
sequence is non-empty, and 0 for a fresh empty aggregate. -/
def ratingsInv (s : State) : Prop :=
  ∀ a ∈ s.ratings, (a.values = [] → a.average = 0) ∧
    (a.values ≠ [] → a.average = mean a.values)

/-- Every book id has a matching rating aggregate. -/
def coveredInv (s : State) : Prop :=
  ∀ b ∈ s.books, ∃ a ∈ s.ratings, dictGet b "id" = some a.id

/-- One store operation, with its nondeterministic inputs made explicit. -/
inductive Op where
  | ins (title isbn genre : String) (google : Except String GoogleData)
      (openlib : Except String OpenLibData) (summary bookId : String)
  | upd (pvs : List (String × String))
  | del (bookId : String)
  | rat (bookId : String) (r : ℚ)

/-- Well-formed operation: an update payload comes from a JSON object, so
its keys are distinct. -/
def opWF : Op → Prop
  | .upd pvs => (dictKeys pvs).Nodup
  | _ => True

/-- The state after one operation (an uncaught exception leaves the state
unchanged: in the source every raise happens before any mutation). -/
def applyOp (s : State) : Op → State
  | .ins t i g gg ll sm bookId =>
      match insert_book s t i g gg ll sm bookId with
      | Except.ok out => out.2.2
      | Except.error _ => s
  | .upd pvs =>
      match update_book s pvs with
      | Except.ok out => out.2.2
      | Except.error _ => s
  | .del bookId => (delete_book s bookId).2.2
  | .rat bookId r => (rate_book s bookId r).2.2.2

/-- The state after a sequence of operations. -/
def applyOps (s : State) (ops : List Op) : State := ops.foldl applyOp s

/-- N successive `rate` calls on one book. -/
def rateMany (s : State) (bookId : String) (vs : List ℚ) : State :=
  vs.foldl (fun st v => (rate_book st bookId v).2.2.2) s

/-- The empty store (`__init__`). -/
def emptyState : State := ⟨[], []⟩

/-- A concrete book record, as `insert_book` stores it when both
enrichment providers were unreachable. -/
def duneBook : Dict :=
  mkBook "Dune" "missing" "9780441013593" "missing" "missing"
    "Science Fiction" "missing" "sum" "id1"

/-- A store holding `duneBook` and its fresh aggregate. -/
def demoStore : State := ⟨[duneBook], [⟨[], 0, "Dune", "id1"⟩]⟩

/-- An aggregate with 3 recorded ratings but a 2-character title. -/
def shortTitleAgg : Rating := ⟨[5, 5, 5], 5, "ab", "b1"⟩

/-- An aggregate with 3 recorded ratings and a 3-character title. -/
def abcAgg : Rating := ⟨[5, 5, 5], 5, "abc", "b2"⟩

end Books

namespace Loans

/-- A book document of the books collection, as the loans service reads
it: its Mongo `_id` (`oid`), its `ISBN` and its `title`. -/
structure MBook where
  title : String
  isbn : String
  oid : String
deriving DecidableEq, Repr

/-- A loan document. -/
structure Loan where
  memberName : String
  isbn : String
  title : String
  bookID : String
  loanDate : String
  loanID : String
deriving DecidableEq, Repr

/-- The two collections the loans service touches. -/
structure LoanState where
  loans : List Loan
  books : List MBook
deriving DecidableEq, Repr

/-- `validate_member_name`: non-empty string. -/
def validate_member_name (name : String) : Bool := name.length > 0

/-- `validate_loan_date`: pattern `^\d{4}-\d{2}-\d{2}$`. -/
def validate_loan_date (date : String) : Bool := matchYMD date.data

/-- `validate_and_return_isbn`: 13 characters, not currently loaned, and
resolving to a book document. -/
def validate_and_return_isbn (s : LoanState) (isbn : String) : Option MBook :=
  if isbn.length ≠ 13 ∨ (s.loans.find? (fun l => l.isbn == isbn)).isSome then
    none
  else s.books.find? (fun b => b.isbn == isbn)

/-- `validate_data(self, name, loan_date, isbn)` — note the parameter
order. -/
def validate_data (s : LoanState) (name loan_date isbn : String) :
    Option MBook :=
  let bd := validate_and_return_isbn s isbn
  if validate_member_name name && validate_loan_date loan_date && bd.isSome
  then bd else none

/-- `self.loans_collection.find({'memberName': member_name}).count()`. -/
def countMemberLoans (s : LoanState) (member : String) : Nat :=
  (s.loans.filter (fun l => l.memberName == member)).length

/-- `insert_loan`.  The source invokes
`self.validate_data(member_name, isbn, loan_date)`, but the signature of
`validate_data` is `(self, name, loan_date, isbn)`: the ISBN argument is
validated as the loan date and the loan date as the ISBN. -/
def insert_loan (s : LoanState) (member_name isbn loan_date : String)
    (newId : String) : (String ⊕ String) × Nat × LoanState :=
  match validate_data s member_name isbn loan_date with
  | none => (Sum.inl "One of the inserted fields is not valid.", 422, s)
  | some bd =>
      if 2 ≤ countMemberLoans s member_name then
        (Sum.inl ("Member " ++ member_name ++
          " has 2 loaned books and cannot loan another one."), 422, s)
      else
        (Sum.inr newId, 201,
          ⟨s.loans ++ [⟨member_name, isbn, bd.title, bd.oid, loan_date, newId⟩],
           s.books⟩)

/-- A loans-service state holding one book and no loans. -/
def demoState : LoanState := ⟨[], [⟨"Dune", "9780441013593", "oid1"⟩]⟩

end Loans

/-- The rational 3.5, given by an explicit numerator/denominator pair so
that kernel evaluation does not go through field division. -/
def sevenHalves : ℚ := ⟨7, 2, by decide, by decide⟩

example : Books.validate_publish_date "2024-05-01" = true := by decide

example : Books.validate_publish_date "2024" = true := by decide

example : Books.validate_publish_date "202" = false := by decide

example : strContains "en" "english" = true := by decide

example : strContains "" "x" = true := by decide

example : pythonInt sevenHalves = 3 := by decide

example : pythonInt (-sevenHalves) = -3 := by decide

/-- C1: a loan request that satisfies every condition of the claim —
non-empty member name, `YYYY-MM-DD` loan date, 13-character ISBN resolving
to an existing book with no outstanding loan, member holding 0 < 2 loans —
is nevertheless rejected with 422 and no loan is created, because
`insert_loan` passes its arguments to `validate_data` in swapped order
(the ISBN is checked against the date pattern and the date against the
ISBN rules). -/
theorem C1_valid_loan_rejected :
    Loans.validate_member_name "alice" = true ∧
    Loans.validate_loan_date "2024-05-01" = true ∧
    "9780441013593".length = 13 ∧
    (Loans.demoState.books.find? (fun b => b.isbn == "9780441013593")).isSome = true ∧
    Loans.demoState.loans.filter (fun l => l.isbn == "9780441013593") = [] ∧
    Loans.countMemberLoans Loans.demoState "alice" < 2 ∧
    Loans.insert_loan Loans.demoState "alice" "9780441013593" "2024-05-01" "loan1" =
      (Sum.inl "One of the inserted fields is not valid.", 422, Loans.demoState) := by
  decide

/-- C2 counterexample: insert one book and then delete it.  The books list
becomes empty while the rating aggregate survives, so the set of aggregate
ids does not equal the set of book ids: `delete_book` does not cascade. -/
theorem C2_cex_delete_leaves_aggregate :
    (Books.applyOps Books.emptyState
      [Books.Op.ins "Dune" "9780441013593" "Science Fiction"
        (Except.error "e") (Except.error "e") "sum" "id1",
       Books.Op.del "id1"]).books = [] ∧
    ((Books.applyOps Books.emptyState
      [Books.Op.ins "Dune" "9780441013593" "Science Fiction"
        (Except.error "e") (Except.error "e") "sum" "id1",
       Books.Op.del "id1"]).ratings.map (fun a => a.id)) = ["id1"] := by
  decide

/-- C3: an aggregate with 3 recorded ratings (and a coherent average) is
omitted by `get_top` because its title has fewer than 3 characters: the
source derives the candidate mean set from aggregates with
`len(rating["title"]) >= 3` instead of `len(rating["values"]) >= 3`,
contradicting its own comment and docstring. -/
theorem C3_get_top_drops_short_title :
    3 ≤ Books.shortTitleAgg.values.length ∧
    Books.shortTitleAgg.average = Books.mean Books.shortTitleAgg.values ∧
    Books.get_top [Books.shortTitleAgg] = ([], 200) := by
  refine ⟨by decide, ?_, by decide⟩
  show (5 : ℚ) = ([(5 : ℚ), 5, 5].sum / ([(5 : ℚ), 5, 5].length : ℚ))
  norm_num

/-- C6: a validated insert whose Google Books lookup fails while the Open
Library lookup succeeds raises an uncaught KeyError instead of degrading
to "missing" fields: `response_code` holds the status of the second call,
so the enriched branch reads `book_google_api_data["authors"]` from the
error payload.  The provider failure escapes to the caller and no book is
appended. -/
theorem C6_google_failure_raises :
    Books.validate_data Books.emptyState.books "Dune" "9780441013593"
      "Science Fiction" = true ∧
    Books.insert_book Books.emptyState "Dune" "9780441013593" "Science Fiction"
      (Except.error "no items") (Except.ok ⟨"eng"⟩) "sum" "id1" =
      Except.error () := by
  exact ⟨by decide, rfl⟩

/-- C10 counterexample: an update payload without a `"genre"` key raises an
uncaught KeyError (`put_values["genre"]`) instead of reaching the locate-
by-id step that the claim describes (which here would yield 404). -/
theorem C10_cex_missing_genre_raises :
    Books.update_book Books.emptyState [("id", "x")] = Except.error () ∧
    Books.update_book Books.emptyState [("id", "x")] ≠
      Except.ok (none, 404, Books.emptyState) := by
  refine ⟨rfl, fun h => ?_⟩
  rw [show Books.update_book Books.emptyState [("id", "x")] =
    Except.error () from rfl] at h
  simp at h

/-- C5: whenever title/genre/ISBN validation fails — in particular
whenever some stored book already carries the requested ISBN —
`insert_book` returns 422 and leaves both the books and the ratings
collections untouched, whatever the other field values and whatever the
enrichment providers would have answered. -/
theorem C5_insert_validation_failure (s : Books.State)
    (title isbn genre summary bookId : String)
    (google : Except String Books.GoogleData)
    (openlib : Except String Books.OpenLibData) :
    (Books.validate_data s.books title isbn genre = false →
      Books.insert_book s title isbn genre google openlib summary bookId =
        Except.ok (none, 422, s)) ∧
    ((∀ b ∈ s.books, "ISBN" ∈ Books.dictKeys b) →
      (∃ b ∈ s.books, Books.dictGet b "ISBN" = some isbn) →
      Books.insert_book s title isbn genre google openlib summary bookId =
        Except.ok (none, 422, s)) := by
  have hmain : Books.validate_data s.books title isbn genre = false →
      Books.insert_book s title isbn genre google openlib summary bookId =
        Except.ok (none, 422, s) := by
    intro h
    simp only [Books.insert_book]
    rw [if_pos h]
  refine ⟨hmain, fun hall hex => hmain ?_⟩
  obtain ⟨b, hb, hISBN⟩ := hex
  have hsne : Books.search_by_field s.books "ISBN" isbn ≠ [] := by
    cases hsb : s.books with
    | nil => rw [hsb] at hb; cases hb
    | cons b0 rest =>
        simp only [Books.search_by_field]
        rw [if_neg (not_not_intro (hall b0 (hsb ▸ List.mem_cons_self b0 rest)))]
        intro hemp
        have hbmem : b ∈ (b0 :: rest).filter
            (fun bk => Books.dictGet bk "ISBN" = some isbn) :=
          List.mem_filter.2 ⟨hsb ▸ hb, by simp [hISBN]⟩
        rw [hemp] at hbmem
        cases hbmem
  have hie : (Books.search_by_field s.books "ISBN" isbn).isEmpty = false := by
    cases hse : Books.search_by_field s.books "ISBN" isbn with
    | nil => exact absurd hse hsne
    | cons x xs => rfl
  simp [Books.validate_data, Books.validate_isbn, hie]

/-- C5 witness: inserting a second book with `duneBook`'s ISBN is
rejected with 422 and the store is unchanged. -/
theorem C5_witness :
    Books.insert_book Books.demoStore "Other" "9780441013593" "Fantasy"
      (Except.error "e") (Except.error "e") "s2" "id2" =
      Except.ok (none, 422, Books.demoStore) :=
  (C5_insert_validation_failure Books.demoStore "Other" "9780441013593"
    "Fantasy" "s2" "id2" (Except.error "e") (Except.error "e")).2
    (by decide) ⟨Books.duneBook, by decide, by decide⟩

/-- C7: for every store state and book id, a numeric rating that is not
one of the integers 1..5 (non-integral values included) makes `rate_book`
answer 422 with the state — hence every aggregate's ratings sequence and
average — unchanged. -/
theorem C7_rate_book_rejects_invalid (s : Books.State) (bookId : String)
    (r : ℚ) (h : r ∉ ([1, 2, 3, 4, 5] : List ℚ)) :
    Books.rate_book s bookId r = (none, none, 422, s) := by
  have hcond : ((pythonInt r : ℚ) ≠ r) ∨
      pythonInt r ∉ ([1, 2, 3, 4, 5] : List ℤ) := by
    by_cases hint : (pythonInt r : ℚ) = r
    · right
      intro hmem
      apply h
      have hr : r = ((pythonInt r : ℤ) : ℚ) := hint.symm
      simp only [List.mem_cons, List.not_mem_nil, or_false] at hmem
      rcases hmem with h1 | h1 | h1 | h1 | h1 <;> rw [hr, h1] <;> norm_num
    · exact Or.inl hint
  simp only [Books.rate_book]
  rw [if_pos hcond]

/-- C7 witness: rating 3.5 is rejected and the store is unchanged. -/
theorem C7_witness :
    sevenHalves ∉ ([1, 2, 3, 4, 5] : List ℚ) ∧
    Books.rate_book Books.demoStore "id1" sevenHalves =
      (none, none, 422, Books.demoStore) :=
  ⟨by decide,
   C7_rate_book_rejects_invalid Books.demoStore "id1" sevenHalves (by decide)⟩

/-- Flattening membership for `get_top`. -/
theorem mem_flattenL {ls : List (List Books.Rating)} {x : Books.Rating} :
    x ∈ Books.flattenL ls ↔ ∃ l ∈ ls, x ∈ l := by
  induction ls with
  | nil => simp [Books.flattenL]
  | cons y ys ih =>
      have hcons : Books.flattenL (y :: ys) = y ++ Books.flattenL ys := rfl
      simp [hcons, List.mem_append, ih]

/-- `bucketAdd` never changes the key list. -/
theorem bucketAdd_keys (bs : List (ℚ × List Books.Rating)) (a : Books.Rating) :
    (Books.bucketAdd bs a).map Prod.fst = bs.map Prod.fst := by
  induction bs with
  | nil => rfl
  | cons p rest ih =>
      obtain ⟨k, l⟩ := p
      simp only [Books.bucketAdd]
      by_cases hk : k = a.average
      · rw [if_pos hk]; simp [hk]
      · rw [if_neg hk]; simp [ih]

/-- Where a bucket of `bucketAdd bs a` comes from. -/
theorem bucketAdd_mem {bs : List (ℚ × List Books.Rating)} {a : Books.Rating}
    {k : ℚ} {l : List Books.Rating} (h : (k, l) ∈ Books.bucketAdd bs a) :
    ∃ l0, (k, l0) ∈ bs ∧ (l = l0 ∨ (l = l0 ++ [a] ∧ a.average = k)) := by
  induction bs with
  | nil => cases h
  | cons p rest ih =>
      obtain ⟨k', l'⟩ := p
      simp only [Books.bucketAdd] at h
      by_cases hk : k' = a.average
      · rw [if_pos hk] at h
        rcases List.mem_cons.1 h with heq | hmem
        · rw [Prod.mk.injEq] at heq
          obtain ⟨rfl, rfl⟩ := heq
          exact ⟨l', List.mem_cons_self _ _, Or.inr ⟨rfl, hk.symm⟩⟩
        · exact ⟨l, List.mem_cons_of_mem _ hmem, Or.inl rfl⟩
      · rw [if_neg hk] at h
        rcases List.mem_cons.1 h with heq | hmem
        · rw [Prod.mk.injEq] at heq
          obtain ⟨rfl, rfl⟩ := heq
          exact ⟨l, List.mem_cons_self _ _, Or.inl rfl⟩
        · obtain ⟨l0, hl0, hc⟩ := ih hmem
          exact ⟨l0, List.mem_cons_of_mem _ hl0, hc⟩

/-- Every member of a filled bucket has at least 3 recorded ratings and
its average equals the bucket key. -/
theorem fillBuckets_good (ratings : List Books.Rating) :
    ∀ bs : List (ℚ × List Books.Rating),
      (∀ p ∈ bs, ∀ x ∈ p.2, 3 ≤ x.values.length ∧ x.average = p.1) →
      ∀ p ∈ Books.fillBuckets ratings bs, ∀ x ∈ p.2,
        3 ≤ x.values.length ∧ x.average = p.1 := by
  induction ratings with
  | nil => intro bs hbs; simpa [Books.fillBuckets] using hbs
  | cons a rest ih =>
      intro bs hbs
      have hrw : Books.fillBuckets (a :: rest) bs =
          Books.fillBuckets rest
            (if a.values.length < 3 then bs else Books.bucketAdd bs a) := rfl
      rw [hrw]
      refine ih _ ?_
      by_cases hv : a.values.length < 3
      · rw [if_pos hv]; exact hbs
      · rw [if_neg hv]
        rintro ⟨k, l⟩ hp x hx
        obtain ⟨l0, hl0, hcase⟩ := bucketAdd_mem hp
        rcases hcase with rfl | ⟨rfl, hak⟩
        · exact hbs _ hl0 x hx
        · rcases List.mem_append.1 hx with hx0 | hxa
          · exact hbs _ hl0 x hx0
          · have hxe : x = a := by simp_all
            subst hxe
            exact ⟨Nat.le_of_not_lt hv, hak⟩

/-- Filling buckets never changes the key list. -/
theorem fillBuckets_keys (ratings : List Books.Rating) :
    ∀ bs, (Books.fillBuckets ratings bs).map Prod.fst = bs.map Prod.fst := by
  induction ratings with
  | nil => intro bs; rfl
  | cons a rest ih =>
      intro bs
      have hrw : Books.fillBuckets (a :: rest) bs =
          Books.fillBuckets rest
            (if a.values.length < 3 then bs else Books.bucketAdd bs a) := rfl
      rw [hrw, ih]
      by_cases hv : a.values.length < 3
      · rw [if_pos hv]
      · rw [if_neg hv, bucketAdd_keys]

/-- C4: for every ratings state, `get_top` returns no aggregate with fewer
than 3 recorded ratings, and the returned aggregates carry at most 3
distinct mean values. -/
theorem C4_top_bounded (ratings : List Books.Rating) :
    (∀ x ∈ (Books.get_top ratings).1, 3 ≤ x.values.length) ∧
    (((Books.get_top ratings).1.map (fun x => x.average)).dedup.length ≤ 3) := by
  classical
  have hgood0 : ∀ p ∈ (Books.topRatings ratings).map
        (fun k => (k, ([] : List Books.Rating))),
      ∀ x ∈ p.2, 3 ≤ x.values.length ∧ x.average = p.1 := by
    intro p hp x hx
    obtain ⟨k, hk, rfl⟩ := List.mem_map.1 hp
    cases hx
  have hgood := fillBuckets_good ratings _ hgood0
  have hmem : ∀ x ∈ (Books.get_top ratings).1,
      3 ≤ x.values.length ∧ x.average ∈ Books.topRatings ratings := by
    intro x hx
    obtain ⟨l, hl, hxl⟩ := mem_flattenL.1 hx
    obtain ⟨p, hp, rfl⟩ := List.mem_map.1 hl
    have h2 := hgood p hp x hxl
    refine ⟨h2.1, ?_⟩
    rw [h2.2]
    have hp1 : p.1 ∈ (Books.fillBuckets ratings
        ((Books.topRatings ratings).map
          (fun k => (k, ([] : List Books.Rating))))).map Prod.fst :=
      List.mem_map_of_mem _ hp
    rw [fillBuckets_keys] at hp1
    simpa [List.map_map, Function.comp] using hp1
  refine ⟨fun x hx => (hmem x hx).1, ?_⟩
  have hsub : ((Books.get_top ratings).1.map (fun x => x.average)).toFinset ⊆
      (Books.topRatings ratings).toFinset := by
    intro q hq
    rw [List.mem_toFinset] at hq ⊢
    obtain ⟨x, hx, rfl⟩ := List.mem_map.1 hq
    exact (hmem x hx).2
  calc ((Books.get_top ratings).1.map (fun x => x.average)).dedup.length
      = ((Books.get_top ratings).1.map (fun x => x.average)).toFinset.card :=
        (List.card_toFinset _).symm
    _ ≤ (Books.topRatings ratings).toFinset.card := Finset.card_le_card hsub
    _ ≤ (Books.topRatings ratings).length := List.toFinset_card_le _
    _ ≤ 3 :=
        List.length_take_le 3 (Books.sortedDesc (Books.relevantAverages ratings))

/-- C4 witness at a concrete one-aggregate state. -/
theorem C4_witness :
    3 ≤ Books.abcAgg.values.length ∧
    ((Books.get_top [Books.abcAgg]).1.map (fun x => x.average)).dedup.length ≤ 3 :=
  ⟨(C4_top_bounded [Books.abcAgg]).1 Books.abcAgg (by decide),
   (C4_top_bounded [Books.abcAgg]).2⟩

/-- C9: query semantics of `get_book` — an empty query map returns all
books with 200; otherwise the pairs are folded in order over the candidate
list, where a field outside `BOOK_FIELDS` yields (none, 422) at once, a
genre value outside the enumerated set yields (none, 422), the `language`
field filters by substring containment while every other field filters by
exact equality, and a step that empties the candidate list returns
([], 200) without looking at any later pair. -/
theorem C9_get_book_query_semantics (s : Books.State) :
    (Books.get_book s [] = (some s.books, 200)) ∧
    (∀ q : List (String × String), q ≠ [] →
      Books.get_book s q = Books.goFilter s.books q) ∧
    (∀ (cur : List Books.Dict) (f v : String) (rest : List (String × String)),
      f ∉ Books.BOOK_FIELDS →
      Books.goFilter cur ((f, v) :: rest) = (none, 422)) ∧
    (∀ (cur : List Books.Dict) (v : String) (rest : List (String × String)),
      Books.validate_genre v = false →
      Books.goFilter cur (("genre", v) :: rest) = (none, 422)) ∧
    (∀ (cur : List Books.Dict) (v : String),
      Books.filterStep cur "language" v =
        cur.filter (fun b => strContains v (Books.dictGetD b "language" ""))) ∧
    (∀ (cur : List Books.Dict) (f v : String), f ≠ "language" →
      Books.filterStep cur f v =
        cur.filter (fun b => Books.dictGet b f = some v)) ∧
    (∀ (cur : List Books.Dict) (f v : String) (rest : List (String × String)),
      f ∈ Books.BOOK_FIELDS → (f = "genre" → Books.validate_genre v = true) →
      Books.filterStep cur f v = [] →
      Books.goFilter cur ((f, v) :: rest) = (some [], 200)) ∧
    (∀ (cur : List Books.Dict) (f v : String) (rest : List (String × String)),
      f ∈ Books.BOOK_FIELDS → (f = "genre" → Books.validate_genre v = true) →
      Books.filterStep cur f v ≠ [] →
      Books.goFilter cur ((f, v) :: rest) =
        Books.goFilter (Books.filterStep cur f v) rest) := by
  refine ⟨by simp [Books.get_book], fun q hq => by simp [Books.get_book, hq],
    ?_, ?_, ?_, ?_, ?_, ?_⟩
  · intro cur f v rest hf
    simp only [Books.goFilter]
    rw [if_pos hf]
  · intro cur v rest hv
    simp [Books.goFilter, hv]
  · intro cur v
    simp [Books.filterStep]
  · intro cur f v hf
    simp [Books.filterStep, hf]
  · intro cur f v rest hf hgv hemp
    simp only [Books.goFilter]
    rw [if_neg (not_not_intro hf), if_neg ?hgenre]
    case hgenre =>
      rintro ⟨rfl, hbad⟩
      rw [hgv rfl] at hbad
      cases hbad
    rw [if_pos hemp]
  · intro cur f v rest hf hgv hne
    simp only [Books.goFilter]
    rw [if_neg (not_not_intro hf), if_neg ?hgenre2]
    case hgenre2 =>
      rintro ⟨rfl, hbad⟩
      rw [hgv rfl] at hbad
      cases hbad
    rw [if_neg hne]

/-- C9 witness: a first filter step that empties the candidates makes the
query succeed with [] even though a later pair names an unknown field. -/
theorem C9_witness :
    Books.goFilter [Books.duneBook] [("title", "Nope"), ("badfield", "x")] =
      (some [], 200) :=
  (C9_get_book_query_semantics Books.demoStore).2.2.2.2.2.2.1
    [Books.duneBook] "title" "Nope" [("badfield", "x")]
    (by decide) (fun h => absurd h (by decide)) (by decide)

/-- Assigning a key makes lookup of that key return the new value. -/
theorem dictGet_dictSet_self (d : Books.Dict) (k v : String) :
    Books.dictGet (Books.dictSet d k v) k = some v := by
  induction d with
  | nil => simp [Books.dictSet, Books.dictGet]
  | cons p rest ih =>
      obtain ⟨k', v'⟩ := p
      by_cases hk : k' = k
      · simp [Books.dictSet, hk, Books.dictGet]
      · simp [Books.dictSet, hk, Books.dictGet, ih]

/-- Assigning a key leaves lookups of other keys unchanged. -/
theorem dictGet_dictSet_ne (d : Books.Dict) (k v f : String) (h : f ≠ k) :
    Books.dictGet (Books.dictSet d k v) f = Books.dictGet d f := by
  induction d with
  | nil => simp [Books.dictSet, Books.dictGet, Ne.symm h]
  | cons p rest ih =>
      obtain ⟨k', v'⟩ := p
      by_cases hk : k' = k
      · subst hk
        simp [Books.dictSet, Books.dictGet, Ne.symm h]
      · simp [Books.dictSet, hk, Books.dictGet, ih]

/-- A successful lookup witnesses key membership. -/
theorem dictGet_some_mem_keys {d : Books.Dict} {k v : String}
    (h : Books.dictGet d k = some v) : k ∈ Books.dictKeys d := by
  induction d with
  | nil => cases h
  | cons p rest ih =>
      obtain ⟨k', v'⟩ := p
      by_cases hk : k' = k
      · subst hk; simp [Books.dictKeys]
      · simp only [Books.dictGet, if_neg hk] at h
        have hkeys : Books.dictKeys ((k', v') :: rest) =
          k' :: Books.dictKeys rest := rfl
        rw [hkeys]
        exact List.mem_cons_of_mem _ (ih h)

/-- Fields not named in the payload keep their values. -/
theorem updateFields_not_mem (pvs : List (String × String)) :
    ∀ (b : Books.Dict) (f : String), f ∉ Books.dictKeys pvs →
      Books.dictGet (Books.updateFields b pvs) f = Books.dictGet b f := by
  induction pvs with
  | nil => intro b f h; rfl
  | cons p rest ih =>
      intro b f h
      obtain ⟨k, v⟩ := p
      have hkeys : Books.dictKeys ((k, v) :: rest) = k :: Books.dictKeys rest := rfl
      rw [hkeys, List.mem_cons] at h
      push_neg at h
      have hrw : Books.updateFields b ((k, v) :: rest) =
          Books.updateFields (Books.dictSet b k v) rest := rfl
      rw [hrw, ih _ _ h.2, dictGet_dictSet_ne _ _ _ _ h.1]

/-- Fields named in a duplicate-free payload take the payload value. -/
theorem updateFields_mem (pvs : List (String × String)) :
    ∀ (b : Books.Dict) (f : String), (Books.dictKeys pvs).Nodup →
      f ∈ Books.dictKeys pvs →
      Books.dictGet (Books.updateFields b pvs) f = Books.dictGet pvs f := by
  induction pvs with
  | nil => intro b f _ h; cases h
  | cons p rest ih =>
      intro b f hnd hf
      obtain ⟨k, v⟩ := p
      have hkeys : Books.dictKeys ((k, v) :: rest) = k :: Books.dictKeys rest := rfl
      rw [hkeys] at hnd hf
      have hrw : Books.updateFields b ((k, v) :: rest) =
          Books.updateFields (Books.dictSet b k v) rest := rfl
      by_cases hfk : f = k
      · subst hfk
        have hkns : f ∉ Books.dictKeys rest := (List.nodup_cons.1 hnd).1
        rw [hrw, updateFields_not_mem rest _ _ hkns, dictGet_dictSet_self]
        simp [Books.dictGet]
      · have hfr : f ∈ Books.dictKeys rest := by
          rcases List.mem_cons.1 hf with h | h
          · exact absurd h hfk
          · exact h
        rw [hrw, ih _ _ (List.nodup_cons.1 hnd).2 hfr]
        simp [Books.dictGet, Ne.symm hfk]

/-- When no book matches the id, the update loop reports not-found. -/
theorem updateLoop_none (idv : String) (pvs : List (String × String)) :
    ∀ books : List Books.Dict,
      (∀ b ∈ books, Books.dictGet b "id" ≠ some idv) →
      Books.updateLoop idv pvs books = none := by
  intro books
  induction books with
  | nil => intro _; rfl
  | cons b rest ih =>
      intro h
      simp only [Books.updateLoop]
      rw [if_neg (h b (List.mem_cons_self _ _)),
        ih (fun b' hb' => h b' (List.mem_cons_of_mem _ hb'))]
      rfl

/-- The update loop rewrites exactly the first matching book. -/
theorem updateLoop_found (idv : String) (pvs : List (String × String)) :
    ∀ (pre : List Books.Dict) (b : Books.Dict) (post : List Books.Dict),
      (∀ b' ∈ pre, Books.dictGet b' "id" ≠ some idv) →
      Books.dictGet b "id" = some idv →
      Books.updateLoop idv pvs (pre ++ b :: post) =
        some (pre ++ Books.updateFields b pvs :: post) := by
  intro pre
  induction pre with
  | nil => intro b post _ hb; simp [Books.updateLoop, hb]
  | cons x xs ih =>
      intro b post hpre hb
      simp only [List.cons_append, Books.updateLoop]
      rw [if_neg (hpre x (List.mem_cons_self _ _))]
      simp only [List.append_eq]
      rw [ih b post (fun b' h => hpre b' (List.mem_cons_of_mem _ h)) hb]
      rfl

/-- C10 (amended to payloads that contain the `id` and `genre` keys, as
every payload built by the HTTP layer does): an invalid genre yields 422
with nothing changed; an unknown id yields 404 with nothing changed;
otherwise exactly the supplied fields of the first matching book are
overwritten — fields outside the payload, the book's id, every other book
and the ratings collection are untouched — and no field other than genre
is validated. -/
theorem C10_update_book_semantics (s : Books.State)
    (pvs : List (String × String)) (idv g : String)
    (hid : Books.dictGet pvs "id" = some idv)
    (hg : Books.dictGet pvs "genre" = some g)
    (hnd : (Books.dictKeys pvs).Nodup) :
    (Books.validate_genre g = false →
      Books.update_book s pvs = Except.ok (none, 422, s)) ∧
    (Books.validate_genre g = true →
      (∀ b ∈ s.books, Books.dictGet b "id" ≠ some idv) →
      Books.update_book s pvs = Except.ok (none, 404, s)) ∧
    (∀ (pre : List Books.Dict) (b : Books.Dict) (post : List Books.Dict),
      Books.validate_genre g = true →
      s.books = pre ++ b :: post →
      (∀ b' ∈ pre, Books.dictGet b' "id" ≠ some idv) →
      Books.dictGet b "id" = some idv →
      Books.update_book s pvs =
        Except.ok (some idv, 200,
          ⟨pre ++ Books.updateFields b pvs :: post, s.ratings⟩) ∧
      (∀ f, (f ∈ Books.dictKeys pvs →
          Books.dictGet (Books.updateFields b pvs) f = Books.dictGet pvs f) ∧
        (f ∉ Books.dictKeys pvs →
          Books.dictGet (Books.updateFields b pvs) f = Books.dictGet b f)) ∧
      Books.dictGet (Books.updateFields b pvs) "id" = some idv) := by
  refine ⟨fun hgf => ?_, fun hgt hnone => ?_, fun pre b post hgt hsplit hpre hb => ?_⟩
  · simp [Books.update_book, hid, hg, hgf]
  · simp [Books.update_book, hid, hg, hgt, updateLoop_none idv pvs s.books hnone]
  · refine ⟨?_, fun f => ⟨fun hf => updateFields_mem pvs b f hnd hf,
      fun hf => updateFields_not_mem pvs b f hf⟩, ?_⟩
    · simp [Books.update_book, hid, hg, hgt, hsplit,
        updateLoop_found idv pvs pre b post hpre hb]
    · rw [updateFields_mem pvs b "id" hnd (dictGet_some_mem_keys hid), hid]

/-- C10 witness: a concrete in-place update of `duneBook`. -/
theorem C10_witness :
    Books.update_book Books.demoStore
      [("id", "id1"), ("genre", "Fantasy"), ("title", "Dune II")] =
      Except.ok (some "id1", 200,
        ⟨[Books.updateFields Books.duneBook
            [("id", "id1"), ("genre", "Fantasy"), ("title", "Dune II")]],
         Books.demoStore.ratings⟩) :=
  ((C10_update_book_semantics Books.demoStore
      [("id", "id1"), ("genre", "Fantasy"), ("title", "Dune II")] "id1" "Fantasy"
      (by decide) (by decide) (by decide)).2.2 [] Books.duneBook []
      (by decide) rfl (fun b' h => absurd h (List.not_mem_nil b'))
      (by decide)).1

/-- The book dict built by `insert_book` carries its id under `"id"`. -/
theorem dictGet_mkBook_id (t a i p pd g l sm bid : String) :
    Books.dictGet (Books.mkBook t a i p pd g l sm bid) "id" = some bid := by
  simp [Books.mkBook, Books.dictGet]

/-- What a non-raising `insert_book` does: either validation failed (422,
state unchanged) or the book and a fresh empty aggregate were appended. -/
theorem insert_book_ok (s : Books.State) (title isbn genre summary bookId : String)
    (google : Except String Books.GoogleData)
    (openlib : Except String Books.OpenLibData)
    (out : Option String × Nat × Books.State)
    (h : Books.insert_book s title isbn genre google openlib summary bookId =
      Except.ok out) :
    (out.2.1 = 422 ∧ out.2.2 = s) ∨
    (out.2.1 = 201 ∧
     out.2.2.ratings = s.ratings ++ [⟨[], 0, title, bookId⟩] ∧
     ∃ bk, out.2.2.books = s.books ++ [bk] ∧
       Books.dictGet bk "id" = some bookId) := by
  by_cases hv : Books.validate_data s.books title isbn genre = false
  · simp only [Books.insert_book, if_pos hv] at h
    injection h with h'
    left
    rw [← h']
    exact ⟨rfl, rfl⟩
  · simp only [Books.insert_book, if_neg hv] at h
    cases openlib with
    | error e =>
        injection h with h'
        right
        rw [← h']
        exact ⟨rfl, rfl, _, rfl, dictGet_mkBook_id _ _ _ _ _ _ _ _ _⟩
    | ok ld =>
        cases google with
        | error e => exact absurd h (by simp)
        | ok gd =>
            injection h with h'
            right
            rw [← h']
            exact ⟨rfl, rfl, _, rfl, dictGet_mkBook_id _ _ _ _ _ _ _ _ _⟩

/-- A non-raising `update_book` never touches the ratings list. -/
theorem update_book_ratings (s : Books.State) (pvs : List (String × String))
    (out : Option String × Nat × Books.State)
    (h : Books.update_book s pvs = Except.ok out) :
    out.2.2.ratings = s.ratings := by
  cases h1 : Books.dictGet pvs "id" with
  | none => simp [Books.update_book, h1] at h
  | some idv =>
      cases h2 : Books.dictGet pvs "genre" with
      | none => simp [Books.update_book, h1, h2] at h
      | some g =>
          simp only [Books.update_book, h1, h2] at h
          by_cases hval : Books.validate_genre g = false
          · rw [if_pos hval] at h
            injection h with h'
            rw [← h']
          · rw [if_neg hval] at h
            cases h3 : Books.updateLoop idv pvs s.books with
            | none => rw [h3] at h; injection h with h'; rw [← h']
            | some bks => rw [h3] at h; injection h with h'; rw [← h']

/-- `delete_book` never touches the ratings list. -/
theorem delete_book_ratings (s : Books.State) (bid : String) :
    ((Books.delete_book s bid).2.2).ratings = s.ratings := by
  simp only [Books.delete_book]
  cases h : Books.deleteLoop bid s.books with
  | none => rfl
  | some bks => rfl

/-- Where the aggregates of a successful `rateLoop` come from. -/
theorem rateLoop_mem (bookId : String) (r : ℚ) :
    ∀ (rs rs' : List Books.Rating) (avg : ℚ),
      Books.rateLoop bookId r rs = some (rs', avg) →
      ∀ x ∈ rs', x ∈ rs ∨
        ∃ a ∈ rs, x = ⟨a.values ++ [r], Books.mean (a.values ++ [r]),
          a.title, a.id⟩ := by
  intro rs
  induction rs with
  | nil => intro rs' avg h; cases h
  | cons a rest ih =>
      intro rs' avg h
      simp only [Books.rateLoop] at h
      by_cases ha : a.id = bookId
      · rw [if_pos ha] at h
        injection h with h'
        rw [Prod.mk.injEq] at h'
        obtain ⟨hl, hr⟩ := h'
        intro x hx
        rw [← hl] at hx
        rcases List.mem_cons.1 hx with rfl | hm
        · exact Or.inr ⟨a, List.mem_cons_self _ _, rfl⟩
        · exact Or.inl (List.mem_cons_of_mem _ hm)
      · rw [if_neg ha] at h
        cases hrec : Books.rateLoop bookId r rest with
        | none => rw [hrec] at h; exact absurd h (by simp)
        | some p =>
            rw [hrec] at h
            simp only [Option.map] at h
            injection h with h'
            rw [Prod.mk.injEq] at h'
            obtain ⟨hl, hr⟩ := h'
            intro x hx
            rw [← hl] at hx
            rcases List.mem_cons.1 hx with rfl | hm
            · exact Or.inl (List.mem_cons_self _ _)
            · rcases ih p.1 p.2 (by rw [hrec]) x hm with h1 | ⟨a0, ha0, rfl⟩
              · exact Or.inl (List.mem_cons_of_mem _ h1)
              · exact Or.inr ⟨a0, List.mem_cons_of_mem _ ha0, rfl⟩

/-- `rateLoop` preserves the list of aggregate ids. -/
theorem rateLoop_ids (bookId : String) (r : ℚ) :
    ∀ (rs rs' : List Books.Rating) (avg : ℚ),
      Books.rateLoop bookId r rs = some (rs', avg) →
      rs'.map (fun x => x.id) = rs.map (fun x => x.id) := by
  intro rs
  induction rs with
  | nil => intro rs' avg h; cases h
  | cons a rest ih =>
      intro rs' avg h
      simp only [Books.rateLoop] at h
      by_cases ha : a.id = bookId
      · rw [if_pos ha] at h
        injection h with h'
        rw [Prod.mk.injEq] at h'
        rw [← h'.1]
        simp
      · rw [if_neg ha] at h
        cases hrec : Books.rateLoop bookId r rest with
        | none => rw [hrec] at h; exact absurd h (by simp)
        | some p =>
            rw [hrec] at h
            simp only [Option.map] at h
            injection h with h'
            rw [Prod.mk.injEq] at h'
            rw [← h'.1]
            simp [ih p.1 p.2 (by rw [hrec])]

/-- The books surviving `deleteLoop` were already in the list. -/
theorem deleteLoop_mem (bid : String) :
    ∀ (books books' : List Books.Dict),
      Books.deleteLoop bid books = some books' →
      ∀ nb ∈ books', nb ∈ books := by
  intro books
  induction books with
  | nil => intro books' h; cases h
  | cons b rest ih =>
      intro books' h
      simp only [Books.deleteLoop] at h
      by_cases hb : Books.dictGet b "id" = some bid
      · rw [if_pos hb] at h
        injection h with h'
        rw [← h']
        intro nb hnb
        exact List.mem_cons_of_mem _ hnb
      · rw [if_neg hb] at h
        cases hrec : Books.deleteLoop bid rest with
        | none => rw [hrec] at h; exact absurd h (by simp)
        | some bs =>
            rw [hrec] at h
            simp only [Option.map] at h
            injection h with h'
            rw [← h']
            intro nb hnb
            rcases List.mem_cons.1 hnb with rfl | hm
            · exact List.mem_cons_self _ _
            · exact List.mem_cons_of_mem _ (ih bs hrec nb hm)

/-- Where the books of a successful `updateLoop` come from. -/
theorem updateLoop_mem (idv : String) (pvs : List (String × String)) :
    ∀ (books books' : List Books.Dict),
      Books.updateLoop idv pvs books = some books' →
      ∀ nb ∈ books', nb ∈ books ∨
        ∃ b ∈ books, Books.dictGet b "id" = some idv ∧
          nb = Books.updateFields b pvs := by
  intro books
  induction books with
  | nil => intro books' h; cases h
  | cons b rest ih =>
      intro books' h
      simp only [Books.updateLoop] at h
      by_cases hb : Books.dictGet b "id" = some idv
      · rw [if_pos hb] at h
        injection h with h'
        rw [← h']
        intro nb hnb
        rcases List.mem_cons.1 hnb with rfl | hm
        · exact Or.inr ⟨b, List.mem_cons_self _ _, hb, rfl⟩
        · exact Or.inl (List.mem_cons_of_mem _ hm)
      · rw [if_neg hb] at h
        cases hrec : Books.updateLoop idv pvs rest with
        | none => rw [hrec] at h; exact absurd h (by simp)
        | some bs =>
            rw [hrec] at h
            simp only [Option.map] at h
            injection h with h'
            rw [← h']
            intro nb hnb
            rcases List.mem_cons.1 hnb with rfl | hm
            · exact Or.inl (List.mem_cons_self _ _)
            · rcases ih bs hrec nb hm with h1 | ⟨b0, hb0, hb0id, rfl⟩
              · exact Or.inl (List.mem_cons_of_mem _ h1)
              · exact Or.inr ⟨b0, List.mem_cons_of_mem _ hb0, hb0id, rfl⟩

/-- Every single operation preserves the average-is-mean invariant. -/
theorem applyOp_ratingsInv (s : Books.State) (op : Books.Op)
    (h : Books.ratingsInv s) : Books.ratingsInv (Books.applyOp s op) := by
  cases op with
  | ins t i g gg ll sm bid =>
      simp only [Books.applyOp]
      cases hres : Books.insert_book s t i g gg ll sm bid with
      | error e => exact h
      | ok out =>
          show Books.ratingsInv out.2.2
          rcases insert_book_ok s t i g sm bid gg ll out hres with
            ⟨_, heq⟩ | ⟨_, hrat, _⟩
          · rw [heq]; exact h
          · intro a ha
            rw [hrat] at ha
            rcases List.mem_append.1 ha with h1 | h2
            · exact h a h1
            · have ha2 : a = ⟨[], 0, t, bid⟩ := by simpa using h2
              subst ha2
              exact ⟨fun _ => rfl, fun hne => absurd rfl hne⟩
  | upd pvs =>
      simp only [Books.applyOp]
      cases hres : Books.update_book s pvs with
      | error e => exact h
      | ok out =>
          show Books.ratingsInv out.2.2
          intro a ha
          rw [update_book_ratings s pvs out hres] at ha
          exact h a ha
  | del bid =>
      simp only [Books.applyOp]
      intro a ha
      rw [delete_book_ratings s bid] at ha
      exact h a ha
  | rat bid r =>
      simp only [Books.applyOp, Books.rate_book]
      by_cases hc : ((pythonInt r : ℚ) ≠ r) ∨
          pythonInt r ∉ ([1, 2, 3, 4, 5] : List ℤ)
      · rw [if_pos hc]; exact h
      · rw [if_neg hc]
        cases hrl : Books.rateLoop bid r s.ratings with
        | none => exact h
        | some p =>
            obtain ⟨rs, avg⟩ := p
            show Books.ratingsInv ⟨s.books, rs⟩
            intro a ha
            rcases rateLoop_mem bid r s.ratings rs avg hrl a ha with
              h1 | ⟨a0, _, rfl⟩
            · exact h a h1
            · exact ⟨fun hemp => absurd hemp (by simp), fun _ => rfl⟩

/-- Appending one valid rating through `rate_book` updates the looked-up
aggregate as expected and leaves the books untouched. -/
theorem rateLoop_of_lookup (bookId : String) (r : ℚ) :
    ∀ (rs : List Books.Rating) (a : Books.Rating),
      Books.lookupRating rs bookId = some a →
      ∃ rs', Books.rateLoop bookId r rs =
          some (rs', Books.mean (a.values ++ [r])) ∧
        Books.lookupRating rs' bookId =
          some ⟨a.values ++ [r], Books.mean (a.values ++ [r]),
            a.title, a.id⟩ := by
  intro rs
  induction rs with
  | nil => intro a h; cases h
  | cons x rest ih =>
      intro a h
      simp only [Books.lookupRating] at h
      by_cases hx : x.id = bookId
      · rw [if_pos hx] at h
        injection h with h'
        subst h'
        refine ⟨⟨x.values ++ [r], Books.mean (x.values ++ [r]),
          x.title, x.id⟩ :: rest, ?_, ?_⟩
        · simp [Books.rateLoop, hx]
        · simp [Books.lookupRating, hx]
      · rw [if_neg hx] at h
        obtain ⟨rs', h1, h2⟩ := ih a h
        refine ⟨x :: rs', ?_, ?_⟩
        · simp only [Books.rateLoop]
          rw [if_neg hx, h1]
          rfl
        · simp only [Books.lookupRating]
          rw [if_neg hx]
          exact h2

/-- A rating in {1..5} passes `rate_book`'s guard. -/
theorem rate_guard_of_mem (r : ℚ) (hr : r ∈ ([1, 2, 3, 4, 5] : List ℚ)) :
    ¬(((pythonInt r : ℚ) ≠ r) ∨
      pythonInt r ∉ ([1, 2, 3, 4, 5] : List ℤ)) := by
  fin_cases hr <;> decide

/-- One valid `rate_book` call, seen through `lookupRating`. -/
theorem rate_book_step (s : Books.State) (bookId : String) (r : ℚ)
    (hr : r ∈ ([1, 2, 3, 4, 5] : List ℚ))
    (a : Books.Rating) (ha : Books.lookupRating s.ratings bookId = some a) :
    Books.lookupRating ((Books.rate_book s bookId r).2.2.2).ratings bookId =
      some ⟨a.values ++ [r], Books.mean (a.values ++ [r]),
        a.title, a.id⟩ := by
  obtain ⟨rs', h1, h2⟩ := rateLoop_of_lookup bookId r s.ratings a ha
  simp only [Books.rate_book]
  rw [if_neg (rate_guard_of_mem r hr), h1]
  exact h2

/-- N successive valid `rate_book` calls, seen through `lookupRating`. -/
theorem rateMany_lookup (bookId : String) :
    ∀ (vs : List ℚ) (s : Books.State) (a : Books.Rating),
      (∀ v ∈ vs, v ∈ ([1, 2, 3, 4, 5] : List ℚ)) →
      Books.lookupRating s.ratings bookId = some a →
      ∃ a', Books.lookupRating (Books.rateMany s bookId vs).ratings bookId =
          some a' ∧
        a'.values = a.values ++ vs ∧ a'.title = a.title ∧ a'.id = a.id ∧
        (vs ≠ [] → a'.average = Books.mean (a.values ++ vs)) := by
  intro vs
  induction vs with
  | nil =>
      intro s a _ ha
      exact ⟨a, ha, by simp, rfl, rfl, fun hne => absurd rfl hne⟩
  | cons v rest ih =>
      intro s a hvalid ha
      have hstep := rate_book_step s bookId v
        (hvalid v (List.mem_cons_self _ _)) a ha
      have hmany : Books.rateMany s bookId (v :: rest) =
          Books.rateMany ((Books.rate_book s bookId v).2.2.2) bookId rest := rfl
      obtain ⟨a', h1, h2, h3, h4, h6⟩ :=
        ih ((Books.rate_book s bookId v).2.2.2)
          ⟨a.values ++ [v], Books.mean (a.values ++ [v]), a.title, a.id⟩
          (fun u hu => hvalid u (List.mem_cons_of_mem _ hu)) hstep
      refine ⟨a', by rw [hmany]; exact h1, ?_, h3, h4, ?_⟩
      · rw [h2]
        simp
      · intro _
        by_cases hrest : rest = []
        · subst hrest
          have hnil : Books.rateMany ((Books.rate_book s bookId v).2.2.2)
              bookId [] = (Books.rate_book s bookId v).2.2.2 := rfl
          rw [hnil, hstep] at h1
          injection h1 with h1'
          rw [← h1']
        · have h6'' := h6 hrest
          rw [h6'']
          congr 1
          simp

/-- C8: every operation preserves the invariant that a non-empty
aggregate's stored average is the exact arithmetic mean of its ratings
sequence (a fresh aggregate has an empty sequence and average 0); and N
successive valid `rate` calls with values v1..vN on a freshly created
aggregate leave its values at [v1, ..., vN] and its average at
(v1+...+vN)/N. -/
theorem C8_average_invariant (s : Books.State) :
    (∀ op : Books.Op, Books.ratingsInv s →
      Books.ratingsInv (Books.applyOp s op)) ∧
    (∀ (bookId : String) (vs : List ℚ) (a : Books.Rating),
      Books.lookupRating s.ratings bookId = some a → a.values = [] →
      (∀ v ∈ vs, v ∈ ([1, 2, 3, 4, 5] : List ℚ)) → vs ≠ [] →
      ∃ a', Books.lookupRating (Books.rateMany s bookId vs).ratings bookId =
          some a' ∧ a'.values = vs ∧
        a'.average = vs.sum / (vs.length : ℚ)) := by
  constructor
  · intro op h
    exact applyOp_ratingsInv s op h
  · intro bookId vs a ha hemp hvalid hne
    obtain ⟨a', h1, h2, _, _, h6⟩ := rateMany_lookup bookId vs s a hvalid ha
    refine ⟨a', h1, ?_, ?_⟩
    · rw [h2, hemp]
      simp
    · rw [h6 hne, hemp]
      simp [Books.mean]

/-- C8 witness: delete preserves the invariant on the demo store, and two
valid ratings 5 and 3 leave the fresh aggregate at values [5, 3] with the
exact mean. -/
theorem C8_witness :
    Books.ratingsInv (Books.applyOp Books.demoStore (Books.Op.del "id1")) ∧
    ∃ a', Books.lookupRating
        (Books.rateMany Books.demoStore "id1" [5, 3]).ratings "id1" =
          some a' ∧
      a'.values = [5, 3] ∧
      a'.average = ([5, 3] : List ℚ).sum / ((([5, 3] : List ℚ).length : ℕ) : ℚ) :=
  ⟨(C8_average_invariant Books.demoStore).1 (Books.Op.del "id1")
     (by simp [Books.ratingsInv, Books.demoStore]),
   (C8_average_invariant Books.demoStore).2 "id1" [5, 3]
     ⟨[], 0, "Dune", "id1"⟩ (by decide) rfl (by decide) (by decide)⟩

/-- Every well-formed operation preserves "every book id has a matching
aggregate id". -/
theorem applyOp_covered (s : Books.State) (op : Books.Op)
    (hwf : Books.opWF op) (h : Books.coveredInv s) :
    Books.coveredInv (Books.applyOp s op) := by
  cases op with
  | ins t i g gg ll sm bid =>
      simp only [Books.applyOp]
      cases hres : Books.insert_book s t i g gg ll sm bid with
      | error e => exact h
      | ok out =>
          show Books.coveredInv out.2.2
          rcases insert_book_ok s t i g sm bid gg ll out hres with
            ⟨_, heq⟩ | ⟨_, hrat, bk, hbooks, hbkid⟩
          · rw [heq]; exact h
          · intro b hb
            rw [hbooks] at hb
            rcases List.mem_append.1 hb with h1 | h2
            · obtain ⟨a, har, haid⟩ := h b h1
              exact ⟨a, by rw [hrat]; exact List.mem_append_left _ har, haid⟩
            · have hbk : b = bk := by simpa using h2
              subst hbk
              refine ⟨⟨[], 0, t, bid⟩, ?_, hbkid⟩
              rw [hrat]
              exact List.mem_append_right _ (List.mem_singleton.2 rfl)
  | upd pvs =>
      simp only [Books.applyOp]
      cases hres : Books.update_book s pvs with
      | error e => exact h
      | ok out =>
          show Books.coveredInv out.2.2
          cases h1 : Books.dictGet pvs "id" with
          | none => simp [Books.update_book, h1] at hres
          | some idv =>
              cases h2 : Books.dictGet pvs "genre" with
              | none => simp [Books.update_book, h1, h2] at hres
              | some g =>
                  simp only [Books.update_book, h1, h2] at hres
                  by_cases hval : Books.validate_genre g = false
                  · rw [if_pos hval] at hres
                    injection hres with h'
                    rw [← h']
                    exact h
                  · rw [if_neg hval] at hres
                    cases h3 : Books.updateLoop idv pvs s.books with
                    | none =>
                        rw [h3] at hres
                        injection hres with h'
                        rw [← h']
                        exact h
                    | some bks =>
                        rw [h3] at hres
                        injection hres with h'
                        rw [← h']
                        intro b hb
                        rcases updateLoop_mem idv pvs s.books bks h3 b hb with
                          hold | ⟨b0, hb0, hb0id, rfl⟩
                        · exact h b hold
                        · obtain ⟨a, har, haid⟩ := h b0 hb0
                          refine ⟨a, har, ?_⟩
                          by_cases hidm : "id" ∈ Books.dictKeys pvs
                          · rw [updateFields_mem pvs b0 "id" hwf hidm, h1]
                            rw [hb0id] at haid
                            exact haid
                          · rw [updateFields_not_mem pvs b0 "id" hidm]
                            exact haid
  | del bid =>
      simp only [Books.applyOp, Books.delete_book]
      cases h3 : Books.deleteLoop bid s.books with
      | none => exact h
      | some bks =>
          show Books.coveredInv ⟨bks, s.ratings⟩
          intro b hb
          exact h b (deleteLoop_mem bid s.books bks h3 b hb)
  | rat bid r =>
      simp only [Books.applyOp, Books.rate_book]
      by_cases hc : ((pythonInt r : ℚ) ≠ r) ∨
          pythonInt r ∉ ([1, 2, 3, 4, 5] : List ℤ)
      · rw [if_pos hc]; exact h
      · rw [if_neg hc]
        cases hrl : Books.rateLoop bid r s.ratings with
        | none => exact h
        | some p =>
            obtain ⟨rs, avg⟩ := p
            show Books.coveredInv ⟨s.books, rs⟩
            intro b hb
            obtain ⟨a, har, haid⟩ := h b hb
            have hids := rateLoop_ids bid r s.ratings rs avg hrl
            have hmem : a.id ∈ rs.map (fun x => x.id) := by
              rw [hids]
              exact List.mem_map_of_mem _ har
            obtain ⟨a2, ha2, ha2id⟩ := List.mem_map.1 hmem
            exact ⟨a2, ha2, by rw [haid, ha2id]⟩

/-- C2 (amended): a successful insert creates a matching fresh empty
aggregate and reports 201, and every well-formed operation preserves the
invariant that every book id has a matching aggregate id — but only this
inclusion: `delete_book` removes the book record alone, so the aggregate
outlives its book (see the counterexample theorem) and the two id sets
need not be equal. -/
theorem C2_covered_and_insert_aggregate (s : Books.State) (op : Books.Op)
    (hwf : Books.opWF op) (hinv : Books.coveredInv s) :
    Books.coveredInv (Books.applyOp s op) ∧
    (∀ (title isbn genre summary bookId : String)
       (google : Except String Books.GoogleData)
       (openlib : Except String Books.OpenLibData)
       (out : Option String × Nat × Books.State),
      Books.insert_book s title isbn genre google openlib summary bookId =
        Except.ok out → out.2.1 = 201 →
      out.2.2.ratings = s.ratings ++ [⟨[], 0, title, bookId⟩] ∧
      ∃ bk, out.2.2.books = s.books ++ [bk] ∧
        Books.dictGet bk "id" = some bookId) := by
  refine ⟨applyOp_covered s op hwf hinv, ?_⟩
  intro t i g sm bid gg ll out hres h201
  rcases insert_book_ok s t i g sm bid gg ll out hres with
    ⟨h422, _⟩ | ⟨_, hrat, hbk⟩
  · rw [h201] at h422
    exact absurd h422 (by decide)
  · exact ⟨hrat, hbk⟩

/-- C2 witness: deletion on the empty store preserves the inclusion
invariant. -/
theorem C2_witness :
    Books.coveredInv (Books.applyOp Books.emptyState (Books.Op.del "x")) :=
  (C2_covered_and_insert_aggregate Books.emptyState (Books.Op.del "x")
    trivial (by simp [Books.coveredInv, Books.emptyState])).1
